import Mathlib

/-!
Verification development for deepaas/api/v2/train.py: the in-memory
asynchronous training-job registry (class Handler produced by _get_handler).

Embedding notes.
A record "training" is the dict {"date": ..., "task": ...} stored in
self._trainings; the registry self._trainings is a Python dict, i.e. an
insertion-ordered mapping, embedded as an association list in insertion
order.  An asyncio task has four atomically observable states: still
running, finished normally, finished by raising an exception (kept as its
string rendering, the only part the code uses via "%s" % exc), or
cancelled.  The task methods cancelled(), done() and exception() are
embedded over that state; exception() is partial (raises CancelledError on
a cancelled task and InvalidStateError on a non-terminal one), so it
returns Except.  Python exceptions propagating out of a handler are the
Except.error channel of each handler; web.HTTPNotFound raised by the code
is the httpNotFound error value.

awaiting "asyncio.wait_for(task, 5)" resolves, within the 5-unit grace
period, to whatever the task state has become; it returns normally when the
task finished without failure, re-raises the task exception when it failed,
raises CancelledError when the task ended cancelled, and raises
TimeoutError when the task is still not terminal when the grace period
expires (in which case the task is still in the running state at that
instant).  What a running task does during the grace period after
task.cancel() is signalled is up to the model code, hence a parameter
(CancelOutcome) of the embedded delete handler.
-/

namespace Deepaas

/-- observable state of one asyncio task (the "execution handle" of a job). -/
inductive TaskState where
  | running : TaskState
  | doneOk : TaskState
  | doneError : String → TaskState
  | cancelledState : TaskState
deriving DecidableEq, Repr

/-- Task.cancelled(): true exactly when the task ended cancelled. -/
def task_cancelled : TaskState → Bool
  | .cancelledState => true
  | _ => false

/-- Task.done(): true in every terminal state, including cancelled. -/
def task_done : TaskState → Bool
  | .running => false
  | _ => true

/-- Python exceptions that can propagate out of the embedded handlers. -/
inductive PyError where
  | cancelledError : PyError
  | timeoutError : PyError
  | invalidStateError : PyError
  | httpNotFound : PyError
  | executionError : String → PyError
deriving DecidableEq, Repr

/-- Task.exception(): legal only on a terminal, non-cancelled task; raises
CancelledError on a cancelled task and InvalidStateError on a running one. -/
def task_exception : TaskState → Except PyError (Option String)
  | .running => .error .invalidStateError
  | .cancelledState => .error .cancelledError
  | .doneOk => .ok none
  | .doneError m => .ok (some m)

/-- one job record: the dict stored in self._trainings under a uuid key. -/
structure Training where
  date : String
  task : TaskState
deriving DecidableEq, Repr

/-- self._trainings: insertion-ordered mapping uuid -> training record. -/
abbrev Registry := List (String × Training)

/-- self._trainings.get(u, None): first entry with the given key. -/
def lookupReg : Registry → String → Option Training
  | [], _ => none
  | (k, v) :: rest, u => if k = u then some v else lookupReg rest u

/-- dict assignment self._trainings[u] = tr: replace in place when the key
exists, append otherwise (Python dicts keep the original position). -/
def insertReg : Registry → String → Training → Registry
  | [], u, tr => [(u, tr)]
  | (k, v) :: rest, u, tr =>
      if k = u then (u, tr) :: rest else (k, v) :: insertReg rest u tr

/-- mutation of the task object held by the record with the given key: the
record keeps its key, its date and its position, only the task state moves. -/
def setTask : Registry → String → TaskState → Registry
  | [], _, _ => []
  | (k, v) :: rest, u, t =>
      if k = u then (k, { v with task := t }) :: rest
      else (k, v) :: setTask rest u t

/-- the json payload built by build_train_response: date and uuid always,
a status string, and a message entry present only on the error path. -/
structure TrainResponse where
  date : String
  uuid : String
  status : String
  message : Option String := none
deriving DecidableEq, Repr

/-- Handler.build_train_response: returns None (no payload) on a lookup
miss; otherwise derives the status by checking task.cancelled() first, then
task.done() splitting on task.exception(), else running.  The Except layer
carries any exception the task queries would raise. -/
def build_train_response (reg : Registry) (u : String) :
    Except PyError (Option TrainResponse) :=
  match lookupReg reg u with
  | none => .ok none
  | some training =>
    if task_cancelled training.task then
      .ok (some { date := training.date, uuid := u, status := "cancelled" })
    else if task_done training.task then
      match task_exception training.task with
      | .error e => .error e
      | .ok exc =>
        match exc with
        | some m =>
            .ok (some { date := training.date, uuid := u, status := "error",
                        message := some m })
        | none => .ok (some { date := training.date, uuid := u, status := "done" })
    else
      .ok (some { date := training.date, uuid := u, status := "running" })

/-- the hardcoded grace period of asyncio.wait_for(task, 5) in delete. -/
def grace_period : Nat := 5

/-- what a running task does during the grace period once cancellation has
been signalled: honors the signal, finishes normally anyway, finishes by
raising, or is still not terminal when the 5 units expire. -/
inductive CancelOutcome where
  | honored : CancelOutcome
  | finishedOk : CancelOutcome
  | finishedError : String → CancelOutcome
  | timeout : CancelOutcome
deriving DecidableEq, Repr

/-- task state when asyncio.wait_for(task, 5) resolves: a task already
terminal is unaffected by cancel(); a running one evolves per the outcome
(on timeout it is still running at the instant wait_for gives up). -/
def postWaitState (t : TaskState) : CancelOutcome → TaskState
  | o =>
    if task_done t then t
    else
      match o with
      | .honored => .cancelledState
      | .finishedOk => .doneOk
      | .finishedError m => .doneError m
      | .timeout => .running

/-- result of awaiting asyncio.wait_for(task, 5), given the task state at
resolution time: normal return, re-raised task failure, CancelledError for
a cancelled task, TimeoutError when the grace period expired first. -/
def waitFor : TaskState → Except PyError Unit
  | .running => .error .timeoutError
  | .doneOk => .ok ()
  | .doneError m => .error (.executionError m)
  | .cancelledState => .error .cancelledError

/-- Handler.post (submit): a fresh uuid and the task handle produced by
model_obj.train(**args) come from outside; the record with the submission
date is inserted under the new uuid and build_train_response of the new
uuid is returned as the json payload.  The task is stored as produced,
never awaited here. -/
def post (reg : Registry) (newId : String) (date : String) (task : TaskState) :
    Registry × Except PyError (Option TrainResponse) :=
  let upd := insertReg reg newId { date := date, task := task }
  (upd, build_train_response upd newId)

/-- Handler.delete (cancel): HTTPNotFound on a lookup miss; otherwise
signal task.cancel(), await wait_for(task, 5) with only TimeoutError
caught, then log and return build_train_response of the uuid.  Any other
exception from the await (CancelledError of a task that honored the
signal, or the failure of a task that terminated by raising) propagates
uncaught, skipping both the log line and the response. -/
def delete (reg : Registry) (u : String) (outcome : CancelOutcome) :
    Registry × Except PyError (Option TrainResponse) :=
  match lookupReg reg u with
  | none => (reg, .error .httpNotFound)
  | some training =>
      let t2 := postWaitState training.task outcome
      let reg2 := setTask reg u t2
      match waitFor t2 with
      | .ok _ => (reg2, build_train_response reg2 u)
      | .error .timeoutError => (reg2, build_train_response reg2 u)
      | .error e => (reg2, .error e)

/-- the loop body of Handler.index: one build_train_response per key of the
registry, in insertion order; an exception from any call would propagate. -/
def index_loop (reg : Registry) :
    List (String × Training) → Except PyError (List (Option TrainResponse))
  | [] => .ok []
  | (u, _) :: rest =>
      match build_train_response reg u with
      | .error e => .error e
      | .ok aux =>
          match index_loop reg rest with
          | .error e => .error e
          | .ok ret => .ok (aux :: ret)

/-- Handler.index (list): iterates self._trainings.items() appending each
build_train_response payload; the registry itself is left untouched. -/
def index (reg : Registry) :
    Registry × Except PyError (List (Option TrainResponse)) :=
  (reg, index_loop reg reg)

/-- Handler.get (status): json payload when build_train_response produced
one, HTTPNotFound otherwise; the registry itself is left untouched. -/
def get (reg : Registry) (u : String) :
    Registry × Except PyError TrainResponse :=
  match build_train_response reg u with
  | .error e => (reg, .error e)
  | .ok (some r) => (reg, .ok r)
  | .ok none => (reg, .error .httpNotFound)

/-- total form of build_train_response, shown equal to it in
build_eq_ok below. -/
def buildVal (reg : Registry) (u : String) : Option TrainResponse :=
  match lookupReg reg u with
  | none => none
  | some training =>
    match training.task with
    | .cancelledState =>
        some { date := training.date, uuid := u, status := "cancelled" }
    | .doneError m =>
        some { date := training.date, uuid := u, status := "error",
               message := some m }
    | .doneOk => some { date := training.date, uuid := u, status := "done" }
    | .running => some { date := training.date, uuid := u, status := "running" }

theorem build_eq_ok (reg : Registry) (u : String) :
    build_train_response reg u = Except.ok (buildVal reg u) := by
  unfold build_train_response buildVal
  cases lookupReg reg u with
  | none => rfl
  | some tr =>
      obtain ⟨d, t⟩ := tr
      cases t <;> rfl

/-- C1: for every job record in the registry the derived status is computed
cancelled-first, then terminal (error when a failure is recorded, otherwise
done), else running; the four statuses are mutually exclusive and
exhaustive and a cancelled execution is never classified done or error. -/
theorem c1_status_derivation (reg : Registry) (u : String) (tr : Training)
    (h : lookupReg reg u = some tr) :
    ∃ r : TrainResponse,
      build_train_response reg u = Except.ok (some r) ∧
      (r.status = "cancelled" ↔ task_cancelled tr.task = true) ∧
      (r.status = "error" ↔
        (task_cancelled tr.task = false ∧ task_done tr.task = true ∧
          ∃ m, task_exception tr.task = Except.ok (some m))) ∧
      (r.status = "done" ↔
        (task_cancelled tr.task = false ∧ task_done tr.task = true ∧
          task_exception tr.task = Except.ok none)) ∧
      (r.status = "running" ↔ task_done tr.task = false) ∧
      (r.status = "cancelled" ∨ r.status = "error" ∨ r.status = "done" ∨
        r.status = "running") ∧
      (task_cancelled tr.task = true → r.status ≠ "done" ∧ r.status ≠ "error") := by
  have hb := build_eq_ok reg u
  unfold buildVal at hb
  rw [h] at hb
  obtain ⟨d, t⟩ := tr
  cases t <;>
    exact ⟨_, hb, by simp [task_cancelled, task_done, task_exception]⟩

theorem c1_witness :
    ∃ r : TrainResponse,
      build_train_response [("a", { date := "d", task := TaskState.cancelledState })] "a" =
        Except.ok (some r) ∧ r.status = "cancelled" := by
  obtain ⟨r, hb, hc, _⟩ :=
    c1_status_derivation [("a", { date := "d", task := TaskState.cancelledState })]
      "a" ⟨"d", TaskState.cancelledState⟩ rfl
  exact ⟨r, hb, hc.mpr rfl⟩

/-- C10: status derivation is total and never raises: for a registry and
any identifier, build_train_response always yields a well-defined ok
result, even though the failure-state query itself is partial (it raises
on a cancelled or still-running task). -/
theorem c10_build_total (reg : Registry) (u : String) :
    (∃ v, build_train_response reg u = Except.ok v) ∧
    task_exception TaskState.cancelledState = Except.error PyError.cancelledError ∧
    task_exception TaskState.running = Except.error PyError.invalidStateError :=
  ⟨⟨buildVal reg u, build_eq_ok reg u⟩, rfl, rfl⟩

/-- C4: for an identifier absent from the registry, both the status
operation and the cancel operation signal HTTPNotFound and produce no
snapshot, leaving the registry as it was. -/
theorem c4_not_found (reg : Registry) (u : String) (outcome : CancelOutcome)
    (h : lookupReg reg u = none) :
    get reg u = (reg, Except.error PyError.httpNotFound) ∧
    delete reg u outcome = (reg, Except.error PyError.httpNotFound) := by
  have hb : buildVal reg u = none := by unfold buildVal; rw [h]
  constructor
  · unfold get
    rw [build_eq_ok, hb]
  · unfold delete
    rw [h]

theorem c4_witness :
    get [] "x" = ([], Except.error PyError.httpNotFound) ∧
    delete [] "x" CancelOutcome.honored = ([], Except.error PyError.httpNotFound) :=
  c4_not_found [] "x" CancelOutcome.honored rfl

/-- C6: every snapshot built for a job present in the registry carries the
job identifier and the stored submission date, and carries a message entry
exactly when the derived status is the error status. -/
theorem c6_snapshot_fields (reg : Registry) (u : String) (tr : Training)
    (h : lookupReg reg u = some tr) :
    ∃ r : TrainResponse,
      build_train_response reg u = Except.ok (some r) ∧
      r.uuid = u ∧ r.date = tr.date ∧
      (r.message.isSome = true ↔ r.status = "error") := by
  have hb := build_eq_ok reg u
  unfold buildVal at hb
  rw [h] at hb
  obtain ⟨d, t⟩ := tr
  cases t <;> exact ⟨_, hb, rfl, rfl, by simp⟩

theorem c6_witness :
    ∃ r : TrainResponse,
      build_train_response [("a", { date := "d", task := TaskState.doneOk })] "a" =
        Except.ok (some r) ∧
      r.uuid = "a" ∧ r.date = "d" ∧
      (r.message.isSome = true ↔ r.status = "error") :=
  c6_snapshot_fields [("a", { date := "d", task := TaskState.doneOk })]
    "a" ⟨"d", TaskState.doneOk⟩ rfl

/-- C7 counterexample: a job whose execution raised a failure rendering to
the empty string is reported with status error and the EMPTY message, so
the claimed non-empty message does not hold as stated. -/
theorem c7_counterexample :
    build_train_response [("a", { date := "d", task := TaskState.doneError "" })] "a" =
      Except.ok (some { date := "d", uuid := "a", status := "error",
                        message := some "" }) := rfl

/-- C7 amended: a job whose execution completed without failure reports
done once terminal; one that raised reports error with a message equal to
the failure rendering, which may be empty; one whose execution ended
cancelled reports cancelled. -/
theorem c7_amended (reg : Registry) (u : String) (tr : Training)
    (h : lookupReg reg u = some tr) :
    (tr.task = TaskState.doneOk →
      ∃ r : TrainResponse,
        build_train_response reg u = Except.ok (some r) ∧ r.status = "done") ∧
    (∀ m, tr.task = TaskState.doneError m →
      ∃ r : TrainResponse,
        build_train_response reg u = Except.ok (some r) ∧
          r.status = "error" ∧ r.message = some m) ∧
    (tr.task = TaskState.cancelledState →
      ∃ r : TrainResponse,
        build_train_response reg u = Except.ok (some r) ∧
          r.status = "cancelled") := by
  have hb := build_eq_ok reg u
  unfold buildVal at hb
  rw [h] at hb
  obtain ⟨d, t⟩ := tr
  cases t with
  | running =>
      refine ⟨fun ht => ?_, fun m hm => ?_, fun hc => ?_⟩
      · exact nomatch ht
      · exact nomatch hm
      · exact nomatch hc
  | doneOk =>
      refine ⟨fun ht => ⟨_, hb, rfl⟩, fun m hm => ?_, fun hc => ?_⟩
      · exact nomatch hm
      · exact nomatch hc
  | doneError msg =>
      refine ⟨fun ht => ?_, fun m hm => ?_, fun hc => ?_⟩
      · exact nomatch ht
      · injection hm with hmsg
        subst hmsg
        exact ⟨_, hb, rfl, rfl⟩
      · exact nomatch hc
  | cancelledState =>
      refine ⟨fun ht => ?_, fun m hm => ?_, fun hc => ⟨_, hb, rfl⟩⟩
      · exact nomatch ht
      · exact nomatch hm

theorem c7_witness :
    ∃ r : TrainResponse,
      build_train_response [("b", { date := "d", task := TaskState.doneError "boom" })] "b" =
        Except.ok (some r) ∧ r.status = "error" ∧ r.message = some "boom" :=
  (c7_amended [("b", { date := "d", task := TaskState.doneError "boom" })]
    "b" ⟨"d", TaskState.doneError "boom"⟩ rfl).2.1 "boom" rfl

/-- C2 at the failing input: a running job whose execution honors the
cancellation signal within the grace period.  Awaiting the now-cancelled
task re-raises CancelledError, which the code does not catch (only
TimeoutError is), so the cancel handler propagates the exception instead
of logging the note and returning the post-cancellation snapshot. -/
theorem c2_honored_cancellation_raises :
    delete [("a", { date := "d", task := TaskState.running })] "a"
        CancelOutcome.honored =
      ([("a", { date := "d", task := TaskState.cancelledState })],
        Except.error PyError.cancelledError) := rfl

/-- C3 at the failing input: cancel on a job whose execution already
terminated by raising.  Awaiting the failed task re-raises the stored
failure, which is not caught, so cancel re-raises the execution failure to
its caller instead of converting it into an error-status snapshot. -/
theorem c3_cancel_reraises_failure :
    delete [("a", { date := "d", task := TaskState.doneError "boom" })] "a"
        CancelOutcome.timeout =
      ([("a", { date := "d", task := TaskState.doneError "boom" })],
        Except.error (PyError.executionError "boom")) := rfl

theorem lookup_none_insert (reg : Registry) (u : String) (tr : Training)
    (h : lookupReg reg u = none) : insertReg reg u tr = reg ++ [(u, tr)] := by
  induction reg with
  | nil => rfl
  | cons p rest ih =>
      obtain ⟨k, v⟩ := p
      unfold lookupReg at h
      unfold insertReg
      by_cases hk : k = u
      · rw [if_pos hk] at h
        cases h
      · rw [if_neg hk] at h
        rw [if_neg hk, ih h]
        rfl

theorem lookup_insert_self (reg : Registry) (u : String) (tr : Training) :
    lookupReg (insertReg reg u tr) u = some tr := by
  induction reg with
  | nil => simp [insertReg, lookupReg]
  | cons p rest ih =>
      obtain ⟨k, v⟩ := p
      unfold insertReg
      by_cases hk : k = u
      · rw [if_pos hk]
        simp [lookupReg]
      · rw [if_neg hk]
        unfold lookupReg
        rw [if_neg hk]
        exact ih

/-- C8 counterexample: the success result of submit is the full status
snapshot built for the new job (date, uuid and derived status), not the
bare job identifier; the identifier is only the uuid entry of it. -/
theorem c8_counterexample :
    (post [] "abc" "d" TaskState.running).2 =
      Except.ok (some { date := "d", uuid := "abc", status := "running" }) := rfl

/-- C8 amended: submit with a fresh identifier appends the record (date
and the unawaited task handle, stored as produced) at the end of the
registry under the new identifier and returns, as success result, a status
snapshot that carries the new job identifier and the submission date. -/
theorem c8_submit (reg : Registry) (newId date : String) (task : TaskState)
    (hfresh : lookupReg reg newId = none) :
    (post reg newId date task).1 =
      reg ++ [(newId, { date := date, task := task })] ∧
    lookupReg (post reg newId date task).1 newId =
      some { date := date, task := task } ∧
    ∃ r : TrainResponse,
      (post reg newId date task).2 = Except.ok (some r) ∧
        r.uuid = newId ∧ r.date = date := by
  have hl := lookup_insert_self reg newId { date := date, task := task }
  refine ⟨?_, ?_, ?_⟩
  · show insertReg reg newId { date := date, task := task } = _
    exact lookup_none_insert reg newId _ hfresh
  · show lookupReg (insertReg reg newId { date := date, task := task }) newId = _
    exact hl
  · show ∃ r : TrainResponse,
      build_train_response (insertReg reg newId { date := date, task := task })
        newId = Except.ok (some r) ∧ r.uuid = newId ∧ r.date = date
    have hb := build_eq_ok (insertReg reg newId { date := date, task := task }) newId
    unfold buildVal at hb
    rw [hl] at hb
    cases task <;> exact ⟨_, hb, rfl, rfl⟩

theorem c8_witness :
    (post [] "abc" "d" TaskState.running).1 =
      [("abc", { date := "d", task := TaskState.running })] ∧
    lookupReg (post [] "abc" "d" TaskState.running).1 "abc" =
      some { date := "d", task := TaskState.running } ∧
    ∃ r : TrainResponse,
      (post [] "abc" "d" TaskState.running).2 = Except.ok (some r) ∧
        r.uuid = "abc" ∧ r.date = "d" :=
  c8_submit [] "abc" "d" TaskState.running rfl

theorem setTask_keys (reg : Registry) (u : String) (t : TaskState) :
    (setTask reg u t).map Prod.fst = reg.map Prod.fst := by
  induction reg with
  | nil => rfl
  | cons p rest ih =>
      obtain ⟨k, v⟩ := p
      unfold setTask
      by_cases hk : k = u
      · rw [if_pos hk]
        simp
      · rw [if_neg hk]
        simp [ih]

theorem lookup_setTask_ne (reg : Registry) (u k2 : String) (t : TaskState)
    (hne : ¬ k2 = u) :
    lookupReg (setTask reg u t) k2 = lookupReg reg k2 := by
  induction reg with
  | nil => rfl
  | cons p rest ih =>
      obtain ⟨k, v⟩ := p
      unfold setTask
      by_cases hk : k = u
      · have hkk2 : ¬ k = k2 := fun he => hne (he ▸ hk)
        rw [if_pos hk]
        unfold lookupReg
        rw [if_neg hkk2, if_neg hkk2]
      · rw [if_neg hk]
        unfold lookupReg
        by_cases hkk2 : k = k2
        · rw [if_pos hkk2, if_pos hkk2]
        · rw [if_neg hkk2, if_neg hkk2]
          exact ih

theorem lookup_setTask_self (reg : Registry) (u : String) (t : TaskState)
    (tr : Training) (h : lookupReg reg u = some tr) :
    lookupReg (setTask reg u t) u = some { tr with task := t } := by
  induction reg with
  | nil => cases h
  | cons p rest ih =>
      obtain ⟨k, v⟩ := p
      by_cases hk : k = u
      · subst hk
        simp only [lookupReg, if_pos rfl] at h
        cases h
        simp [setTask, lookupReg]
      · simp only [lookupReg, if_neg hk] at h
        simp only [setTask, if_neg hk, lookupReg]
        exact ih h

theorem delete_fst (reg : Registry) (u : String) (outcome : CancelOutcome)
    (tr : Training) (h : lookupReg reg u = some tr) :
    (delete reg u outcome).1 =
      setTask reg u (postWaitState tr.task outcome) := by
  unfold delete
  rw [h]
  cases hw : waitFor (postWaitState tr.task outcome) with
  | ok a => simp [hw]
  | error e => cases e <;> simp [hw]

/-- C9: no operation removes a record or rewrites its stored fields.  The
status and list handlers return the registry untouched; cancel keeps the
key sequence, keeps every record's stored date, leaves every other record
fully unchanged, and for the target record only moves the task state of
its execution handle per the cancellation protocol. -/
theorem c9_frame (reg : Registry) (u : String) (outcome : CancelOutcome) :
    (index reg).1 = reg ∧
    (get reg u).1 = reg ∧
    ((delete reg u outcome).1.map Prod.fst = reg.map Prod.fst) ∧
    (∀ k, ¬ k = u →
      lookupReg (delete reg u outcome).1 k = lookupReg reg k) ∧
    (∀ k tr, lookupReg reg k = some tr →
      ∃ tr2, lookupReg (delete reg u outcome).1 k = some tr2 ∧
        tr2.date = tr.date) ∧
    (∀ tr, lookupReg reg u = some tr →
      lookupReg (delete reg u outcome).1 u =
        some { tr with task := postWaitState tr.task outcome }) := by
  have hget : (get reg u).1 = reg := by
    unfold get
    cases build_train_response reg u with
    | error e => rfl
    | ok o => cases o <;> rfl
  cases hl : lookupReg reg u with
  | none =>
      have hdel : delete reg u outcome = (reg, .error .httpNotFound) := by
        unfold delete
        rw [hl]
      rw [hdel]
      refine ⟨rfl, hget, rfl, fun k _ => rfl, fun k tr htr => ⟨tr, htr, rfl⟩,
        fun tr htr => ?_⟩
      cases htr
  | some tr0 =>
      have hdel := delete_fst reg u outcome tr0 hl
      rw [hdel]
      refine ⟨rfl, hget, setTask_keys reg u _, fun k hk =>
        lookup_setTask_ne reg u k _ hk, fun k tr htr => ?_, fun tr htr => ?_⟩
      · by_cases hk : k = u
        · subst hk
          exact ⟨_, lookup_setTask_self reg k _ tr htr, rfl⟩
        · exact ⟨tr, by rw [lookup_setTask_ne reg u k _ hk]; exact htr, rfl⟩
      · cases htr
        exact lookup_setTask_self reg u _ tr0 hl

theorem c9_witness :
    lookupReg (delete [("a", { date := "d", task := TaskState.running }),
                       ("b", { date := "e", task := TaskState.doneOk })] "a"
        CancelOutcome.honored).1 "b" =
      some { date := "e", task := TaskState.doneOk } ∧
    (delete [("a", { date := "d", task := TaskState.running }),
             ("b", { date := "e", task := TaskState.doneOk })] "a"
        CancelOutcome.honored).1.map Prod.fst = ["a", "b"] := by
  have hc := c9_frame
    [("a", { date := "d", task := TaskState.running }),
     ("b", { date := "e", task := TaskState.doneOk })] "a" CancelOutcome.honored
  constructor
  · rw [hc.2.2.2.1 "b" (by decide)]
    rfl
  · rw [hc.2.2.1]
    rfl

theorem index_loop_ok (reg : Registry) (l : List (String × Training)) :
    index_loop reg l = Except.ok (l.map fun p => buildVal reg p.1) := by
  induction l with
  | nil => rfl
  | cons p rest ih =>
      obtain ⟨u, tr⟩ := p
      unfold index_loop
      rw [build_eq_ok, ih]
      rfl

theorem lookup_mem_of_nodup (reg : Registry)
    (h : (reg.map Prod.fst).Nodup) :
    ∀ p ∈ reg, lookupReg reg p.1 = some p.2 := by
  induction reg with
  | nil =>
      intro p hp
      cases hp
  | cons q rest ih =>
      obtain ⟨k, v⟩ := q
      intro p hp
      rw [List.map_cons, List.nodup_cons] at h
      obtain ⟨hknot, hrest⟩ := h
      cases hp with
      | head =>
          simp [lookupReg]
      | tail _ hmem =>
          have hp1 : p.1 ∈ rest.map Prod.fst := List.mem_map_of_mem Prod.fst hmem
          have hne : ¬ k = p.1 := fun he => hknot (by rw [he]; exact hp1)
          simp only [lookupReg, if_neg hne]
          exact ih hrest p hmem

/-- C5: listing after any number of submissions yields exactly one
snapshot per registry record, in insertion order, and the snapshot at each
position is exactly what the status operation on that record's identifier
independently returns. -/
theorem c5_list_snapshots (reg : Registry)
    (h : (reg.map Prod.fst).Nodup) :
    ∃ rs : List (Option TrainResponse),
      (index reg).2 = Except.ok rs ∧
      rs.length = reg.length ∧
      (∀ i, i < reg.length → ∃ u tr r,
        reg[i]? = some (u, tr) ∧ rs[i]? = some (some r) ∧
        (get reg u).2 = Except.ok r) := by
  refine ⟨reg.map (fun p => buildVal reg p.1), ?_, by simp, ?_⟩
  · show index_loop reg reg = _
    exact index_loop_ok reg reg
  intro i hi
  rcases hp : reg[i] with ⟨u0, d0, t0⟩
  have hg : reg[i]? = some (u0, ⟨d0, t0⟩) := by
    rw [List.getElem?_eq_getElem hi, hp]
  have hmem : (u0, (⟨d0, t0⟩ : Training)) ∈ reg := hp ▸ List.getElem_mem hi
  have hl : lookupReg reg u0 = some ⟨d0, t0⟩ :=
    lookup_mem_of_nodup reg h (u0, ⟨d0, t0⟩) hmem
  have hv : ∃ r, buildVal reg u0 = some r := by
    unfold buildVal
    rw [hl]
    cases t0 <;> exact ⟨_, rfl⟩
  obtain ⟨r, hr⟩ := hv
  refine ⟨u0, ⟨d0, t0⟩, r, hg, ?_, ?_⟩
  · rw [List.getElem?_map, List.getElem?_eq_getElem hi, hp]
    simp [hr]
  · unfold get
    rw [build_eq_ok, hr]

theorem c5_witness :
    ∃ rs : List (Option TrainResponse),
      (index [("a", { date := "d", task := TaskState.running }),
              ("b", { date := "e", task := TaskState.doneOk })]).2 =
        Except.ok rs ∧
      rs.length = 2 := by
  obtain ⟨rs, h1, h2, _⟩ := c5_list_snapshots
    [("a", { date := "d", task := TaskState.running }),
     ("b", { date := "e", task := TaskState.doneOk })] (by simp)
  exact ⟨rs, h1, h2⟩

end Deepaas
